import Mathlib

/-!
# EasyEthers: endpoint resolver and sequential enumeration

A shallow embedding of `src/index.js`.

* JavaScript exceptions are values of `JSError`; a function that may throw
  returns `Except JSError _`.
* Chain ids are integers (`Int`), provider names and API keys are strings.
* An `async` function that awaits calls on an external collaborator (RPC
  provider, contract, `fetch`) takes the collaborator as a record of oracle
  functions and returns, next to its outcome, the list of calls it issued, in
  order.
-/

namespace EasyEthers

/-! ## Errors -/

/-- A thrown JavaScript exception: `new Error(msg)` or a `TypeError`. -/
inductive JSError where
  | error (msg : String)
  | typeError (msg : String)
  deriving DecidableEq, Repr

/-! ## Endpoint resolver (`getProviderUrl`, lines 5-42) -/

namespace PROVIDERS

def INFURA : String := "infura"
def ALCHEMY : String := "alchemy"
def QUICKNODE : String := "quicknode"

end PROVIDERS

/-- The object literal `networks` of `getProviderUrl`, in source order. -/
def networks : List (Int × String) :=
  [ (1, "mainnet"),
    (3, "ropsten"),
    (4, "rinkeby"),
    (5, "goerli"),
    (42, "kovan"),
    (56, "bsc"),
    (97, "bsc-testnet"),
    (100, "xdai"),
    (137, "matic"),
    (80001, "mumbai") ]

/-- Property read `networks[network]` for an integer `network`; `none` is
JavaScript's `undefined`. -/
def networksGet (network : Int) : Option String :=
  networks.lookup network

/-- The test `!networkName`: `undefined` and the empty string are falsy. -/
def notNetworkName : Option String → Bool
  | none => true
  | some s => s == ""

/-- Embedding of `getProviderUrl(provider, apiKey, network)`. -/
def getProviderUrl (provider apiKey : String) (network : Int) : Except JSError String :=
  let networkName := networksGet network
  if notNetworkName networkName then
    .error (.error "Network ID not supported")
  else
    let networkName := networkName.getD ""
    if provider = PROVIDERS.INFURA then
      .ok ("https://" ++ networkName ++ ".infura.io/v3/" ++ apiKey)
    else if provider = PROVIDERS.ALCHEMY then
      .ok ("https://" ++ networkName ++ ".alchemyapi.io/v2/" ++ apiKey)
    else if provider = PROVIDERS.QUICKNODE then
      .ok ("https://" ++ networkName ++ ".quiknode.pro/" ++ apiKey ++ "/")
    else
      .error (.error "Provider not supported")

/-- The keys of the network table. -/
def networkIds : List Int := networks.map Prod.fst

/-- The characters of a resolved URL after the first dot: host, path and key. -/
def hostTail (provider apiKey : String) : List Char :=
  if provider = "infura" then "infura.io/v3/".data ++ apiKey.data
  else if provider = "alchemy" then "alchemyapi.io/v2/".data ++ apiKey.data
  else "quiknode.pro/".data ++ (apiKey.data ++ ['/'])

/-! ## JavaScript values -/

/-- A value obtained by parsing a JSON document, or `undefined` (the result of
reading an absent property). An object is the association list of its own
properties; a number is given by its rational value. -/
inductive JSValue where
  | undefined
  | null
  | bool (b : Bool)
  | number (x : ℚ)
  | string (s : String)
  | array (items : List JSValue)
  | object (fields : List (String × JSValue))

namespace JSValue

/-- JavaScript `ToBoolean`: `undefined`, `null`, `false`, zero and the empty
string are falsy; every array and every object is truthy. -/
def truthy : JSValue → Bool
  | undefined => false
  | null => false
  | bool b => b
  | number x => decide (x ≠ 0)
  | string s => decide (s ≠ "")
  | array _ => true
  | object _ => true

/-- The operator `a || b`. -/
def or (a b : JSValue) : JSValue :=
  if a.truthy then a else b

/-- Property read `v.key`, for a key that no prototype defines (as is the case
for `name`, `description`, `image` and `attributes`): a `TypeError` on
`undefined` and `null`, the own property of an object, `undefined` elsewhere. -/
def getProp (v : JSValue) (key : String) : Except JSError JSValue :=
  match v with
  | undefined =>
    .error (.typeError ("Cannot read properties of undefined (reading '" ++ key ++ "')"))
  | null =>
    .error (.typeError ("Cannot read properties of null (reading '" ++ key ++ "')"))
  | object fields => .ok ((fields.lookup key).getD undefined)
  | _ => .ok undefined

end JSValue

/-! ## Calls on external collaborators -/

/-- The object literal `transaction` of `sendTransaction` (lines 141-146), with
amounts in base units. -/
structure TransactionRequest where
  to_ : String
  value : Int
  gasPrice : Int
  gasLimit : Int
  deriving DecidableEq, Repr

/-- A call awaited on the RPC provider, the contract, the signer or `fetch`. -/
inductive Call where
  | getTransactionCount (address : String)
  | getTransactionByNonce (address : String) (nonce : Int)
  | balanceOf (address : String)
  | totalSupply
  | tokenOfOwnerByIndex (address : String) (index : Nat)
  | tokenByIndex (index : Nat)
  | tokenURI (tokenId : Nat)
  | fetch (uri : String)
  | sendTransaction (request : TransactionRequest)
  deriving DecidableEq, Repr

/-- An `async` computation: from the calls issued so far to its outcome and the
calls issued up to the point where it returned or threw. -/
structure Async (α : Type) where
  run : List Call → Except JSError α × List Call

namespace Async

def pure {α : Type} (a : α) : Async α := ⟨fun calls => (.ok a, calls)⟩

/-- Sequencing: a thrown error skips the continuation. -/
def bind {α β : Type} (m : Async α) (f : α → Async β) : Async β := ⟨fun calls =>
  match m.run calls with
  | (.ok a, calls) => (f a).run calls
  | (.error e, calls) => (.error e, calls)⟩

instance : Monad Async where
  pure := Async.pure
  bind := Async.bind

/-- The step `await collaborator.method(args)`: the call is issued, and its
outcome is returned or rethrown. -/
def await {α : Type} (call : Call) (outcome : Except JSError α) : Async α :=
  ⟨fun calls => (outcome, calls ++ [call])⟩

/-- A step that issues no call but may throw. -/
def lift {α : Type} (outcome : Except JSError α) : Async α :=
  ⟨fun calls => (outcome, calls)⟩

/-- Outcome and issued calls of a computation started from scratch. -/
def exec {α : Type} (m : Async α) : Except JSError α × List Call := m.run []

end Async

/-! ## Transaction history (`getTransactionHistory`, lines 188-199) -/

/-- The two provider methods used by `getTransactionHistory`. -/
structure Provider (τ : Type) where
  getTransactionCount : String → Except JSError Int
  getTransactionByNonce : String → Int → Except JSError τ

/-- The loop `for (let i = transactionCount - 1; i >= 0; i--)`, entered with the
current `i` and the array `transactions`. -/
def getTransactionHistory.loop {τ : Type} (provider : Provider τ) (address : String) (i : Int)
    (transactions : List τ) : Async (List τ) :=
  if i ≥ 0 then do
    let transaction ← Async.await (.getTransactionByNonce address i)
      (provider.getTransactionByNonce address i)
    getTransactionHistory.loop provider address (i - 1) (transactions ++ [transaction])
  else
    Pure.pure transactions
termination_by (i + 1).toNat
decreasing_by omega

/-- Embedding of `getTransactionHistory(address, providerUrl)`, the provider
built from `providerUrl` being given. -/
def getTransactionHistory {τ : Type} (provider : Provider τ) (address : String) :
    Async (List τ) := do
  let transactionCount ← Async.await (.getTransactionCount address)
    (provider.getTransactionCount address)
  getTransactionHistory.loop provider address (transactionCount - 1) []

/-! ## NFT enumeration (`getNFTsFromAddress`, `getAllNFTsInCollection`, lines 226-278) -/

/-- The contract methods used by the two enumerations; token ids, balances and
supplies are unsigned integers. -/
structure Contract where
  balanceOf : String → Except JSError Nat
  totalSupply : Except JSError Nat
  tokenOfOwnerByIndex : String → Nat → Except JSError Nat
  tokenByIndex : Nat → Except JSError Nat
  tokenURI : Nat → Except JSError String

/-- The global `fetch` and the body reader `response.json()`; the latter reads
the response already received and issues no further request. -/
structure Web (ρ : Type) where
  fetch : String → Except JSError ρ
  json : ρ → Except JSError JSValue

/-- An element of the returned array `nfts`. -/
structure NFT where
  tokenId : String
  name : JSValue
  description : JSValue
  image : JSValue
  attributes : JSValue

/-- The object literal pushed onto `nfts` (lines 241-247 and 268-274). -/
def nftEntry (tokenId : Nat) (metadata : JSValue) : Except JSError NFT := do
  let name ← metadata.getProp "name"
  let description ← metadata.getProp "description"
  let image ← metadata.getProp "image"
  let attributes ← metadata.getProp "attributes"
  Pure.pure
    { tokenId := toString tokenId
      name := name.or (.string "NFT sin nombre")
      description := description.or (.string "NFT sin descripción")
      image := image.or (.string "NFT sin imagen")
      attributes := attributes.or (.string "NFT sin atributos") }

/-- The loop `for (let i = 0; i < count; i++)` shared, up to the method that
maps an index to a token id (`tokenOfOwnerByIndex(address, i)` or
`tokenByIndex(i)`), by the two enumerations. -/
def nftLoop {ρ : Type} (contract : Contract) (web : Web ρ) (tokenAt : Nat → Async Nat)
    (count i : Nat) (nfts : List NFT) : Async (List NFT) :=
  if i < count then do
    let tokenId ← tokenAt i
    let tokenURI ← Async.await (.tokenURI tokenId) (contract.tokenURI tokenId)
    let response ← Async.await (.fetch tokenURI) (web.fetch tokenURI)
    let metadata ← Async.lift (web.json response)
    let nft ← Async.lift (nftEntry tokenId metadata)
    nftLoop contract web tokenAt count (i + 1) (nfts ++ [nft])
  else
    Pure.pure nfts
termination_by count - i
decreasing_by omega

/-- Embedding of `getNFTsFromAddress(address, contractAddress, abi, providerUrl)`,
the contract built from the last three arguments being given. -/
def getNFTsFromAddress {ρ : Type} (contract : Contract) (web : Web ρ) (address : String) :
    Async (List NFT) := do
  let balance ← Async.await (.balanceOf address) (contract.balanceOf address)
  nftLoop contract web
    (fun i => Async.await (.tokenOfOwnerByIndex address i) (contract.tokenOfOwnerByIndex address i))
    balance 0 []

/-- Embedding of `getAllNFTsInCollection(contractAddress, abi, providerUrl)`. -/
def getAllNFTsInCollection {ρ : Type} (contract : Contract) (web : Web ρ) :
    Async (List NFT) := do
  let totalSupply ← Async.await .totalSupply contract.totalSupply
  nftLoop contract web
    (fun i => Async.await (.tokenByIndex i) (contract.tokenByIndex i))
    totalSupply 0 []

/-! ## Unit conversion and `sendTransaction` (lines 136-150) -/

/-- Value of a run of decimal digits, most significant first. -/
def digitsValue (digits : List Char) : Nat :=
  digits.foldl (fun acc c => 10 * acc + (c.toNat - 48)) 0

/-- Modelled from the spec: the decimal-string conversion behind
`ethers.utils.parseEther` and `ethers.utils.parseUnits`, functions of the
external ethers library that are not under `src/`. The specification asks for
an exact conversion of decimal-string inputs: an optional sign, integer digits
and, after an optional point, at most `decimals` fractional digits denote
`value * 10 ^ decimals`; any other string throws. -/
def parseFixed (value : String) (decimals : Nat) : Except JSError Int :=
  let negative := value.data.head? == some '-'
  let body := if negative then value.data.tail else value.data
  let whole := body.takeWhile (fun c => c != '.')
  let fraction := (body.dropWhile (fun c => c != '.')).tail
  if !(whole.all Char.isDigit && fraction.all Char.isDigit) ||
      (whole.isEmpty && fraction.isEmpty) then
    .error (.error "invalid decimal value")
  else if fraction.length > decimals then
    .error (.error "fractional component exceeds decimals")
  else
    let wei : Int :=
      digitsValue whole * 10 ^ decimals + digitsValue fraction * 10 ^ (decimals - fraction.length)
    .ok (if negative then -wei else wei)

/-- A decimal numeral given by its digits (numbers below ten, most significant
first): sign, integer digits, and the digits after the point, if there is a
point. -/
structure Decimal where
  negative : Bool
  whole : List Nat
  point : Bool
  fraction : List Nat

namespace Decimal

/-- The string that writes the numeral, each digit by its character. -/
def text (d : Decimal) : String :=
  ⟨(if d.negative then ['-'] else []) ++
    (d.whole.map Nat.digitChar ++
      (if d.point then '.' :: d.fraction.map Nat.digitChar else []))⟩

/-- Only digits, at least one of them, and no fractional digit without a point. -/
def WellFormed (d : Decimal) : Prop :=
  (∀ x ∈ d.whole, x < 10) ∧ (∀ x ∈ d.fraction, x < 10) ∧
    (d.whole ≠ [] ∨ d.fraction ≠ []) ∧ (d.point = false → d.fraction = [])

instance (d : Decimal) : Decidable d.WellFormed := by
  unfold WellFormed
  infer_instance

/-- The rational number that the numeral denotes: the integer part in base ten
plus the fractional digits in base ten over the matching power of ten. -/
def value (d : Decimal) : ℚ :=
  (if d.negative then -1 else 1) *
    (((Nat.ofDigits (10 : Nat) d.whole.reverse : Nat) : ℚ) +
      ((Nat.ofDigits (10 : Nat) d.fraction.reverse : Nat) : ℚ) / 10 ^ d.fraction.length)

end Decimal

/-- Modelled from the spec: the unit names of the glossary,
1 ether = 10^9 gwei = 10^18 wei. -/
def unitDecimals (unitName : String) : Option Nat :=
  if unitName = "wei" then some 0
  else if unitName = "gwei" then some 9
  else if unitName = "ether" then some 18
  else none

/-- Modelled from the spec: `ethers.utils.parseUnits(value, unitName)`. -/
def parseUnits (value unitName : String) : Except JSError Int :=
  match unitDecimals unitName with
  | some decimals => parseFixed value decimals
  | none => .error (.error "invalid unit")

/-- Modelled from the spec: `ethers.utils.parseEther(ether)`, the conversion
with eighteen decimals. -/
def parseEther (ether : String) : Except JSError Int :=
  parseFixed ether 18

/-- The bound `MAX_SAFE` of the ethers library, `0x1fffffffffffff = 2^53 - 1`. -/
def MAX_SAFE : Int := 0x1fffffffffffff

/-- Modelled from the spec: `ethers.BigNumber.from(value)` of the external
ethers library, not under `src/`, applied to a JavaScript number that is an
integer (the specification takes `gasLimit` as an integer): a number of
magnitude at least `2^53 - 1` is refused with a numeric fault, any other is
kept as it is. -/
def BigNumber.from_ (value : Int) : Except JSError Int :=
  if value ≥ MAX_SAFE ∨ value ≤ -MAX_SAFE then
    .error (.error "overflow")
  else
    .ok value

/-- The connected wallet: `sendTransaction(transaction)` resolves to a response
of which only the `hash` is used. -/
structure Signer where
  sendTransaction : TransactionRequest → Except JSError String

/-- Embedding of `sendTransaction(fromPrivateKey, toAddress, amount, gasPrice,
gasLimit, providerUrl)`, the connected wallet built from the private key and
the provider URL being given. The three conversions of the object literal run
in source order, and a conversion that throws leaves the request unsubmitted. -/
def sendTransaction (connectedWallet : Signer) (toAddress amount gasPrice : String)
    (gasLimit : Int) : Async String := do
  let value ← Async.lift (parseEther amount)
  let gasPriceWei ← Async.lift (parseUnits gasPrice "gwei")
  let gasLimitBN ← Async.lift (BigNumber.from_ gasLimit)
  let transaction : TransactionRequest :=
    { to_ := toAddress, value := value, gasPrice := gasPriceWei, gasLimit := gasLimitBN }
  Async.await (.sendTransaction transaction) (connectedWallet.sendTransaction transaction)

/-! ## Definitions used to state the claims -/

/-- The returned field as the specification words it: the metadata field `key`
when it is present and truthy, the placeholder otherwise. -/
def fieldOr (metadata : JSValue) (key placeholder : String) : JSValue :=
  match metadata with
  | .object fields =>
    match fields.lookup key with
    | some v => if v.truthy then v else .string placeholder
    | none => .string placeholder
  | _ => .string placeholder

/-- A contract holding token 7 for every owner, with one token in total. -/
def sampleContract : Contract where
  balanceOf := fun _ => .ok 1
  totalSupply := .ok 1
  tokenOfOwnerByIndex := fun _ _ => .ok 7
  tokenByIndex := fun _ => .ok 7
  tokenURI := fun tokenId => .ok ("ipfs://token/" ++ toString tokenId)

/-- A web on which every fetch succeeds and every body parses to `document`. -/
def sampleWeb (document : JSValue) : Web Unit where
  fetch := fun _ => .ok ()
  json := fun _ => .ok document

/-! ## Resolver lemmas -/

theorem networksGet_eq_none_iff (c : Int) : networksGet c = none ↔ c ∉ networkIds := by
  unfold networksGet networkIds
  rw [List.lookup_eq_none_iff]
  simp only [List.mem_map, Prod.exists, exists_and_right, exists_eq_right, not_exists]
  constructor
  · intro h n hn
    exact absurd (h (c, n) hn) (by simp)
  · intro h p hp
    have : c ≠ p.1 := fun e => h p.2 (by subst e; exact hp)
    simpa using this

theorem networkIds_eq : networkIds = [1, 3, 4, 5, 42, 56, 97, 100, 137, 80001] := rfl

/-- Every name stored in the table is truthy, so a key of the table passes the
`!networkName` test. -/
theorem notNetworkName_of_mem (c : Int) (h : c ∈ networkIds) :
    ∃ n, networksGet c = some n ∧ (c, n) ∈ networks ∧ notNetworkName (some n) = false := by
  rw [networkIds_eq] at h
  simp only [List.mem_cons, List.mem_singleton, List.not_mem_nil, or_false] at h
  rcases h with h | h | h | h | h | h | h | h | h | h <;> subst h <;>
    exact ⟨_, rfl, by decide, by decide⟩

/-- After the network check, `getProviderUrl` is the `switch` on the provider. -/
theorem getProviderUrl_of_get (provider apiKey : String) (c : Int) (n : String)
    (hn : networksGet c = some n) (ht : notNetworkName (some n) = false) :
    getProviderUrl provider apiKey c =
      if provider = "infura" then .ok ("https://" ++ n ++ ".infura.io/v3/" ++ apiKey)
      else if provider = "alchemy" then .ok ("https://" ++ n ++ ".alchemyapi.io/v2/" ++ apiKey)
      else if provider = "quicknode" then .ok ("https://" ++ n ++ ".quiknode.pro/" ++ apiKey ++ "/")
      else .error (.error "Provider not supported") := by
  simp only [getProviderUrl, hn, ht, Bool.false_eq_true, if_false, Option.getD_some,
    PROVIDERS.INFURA, PROVIDERS.ALCHEMY, PROVIDERS.QUICKNODE]

/-- The resolver succeeds exactly on a table key together with a recognised
provider name. -/
theorem getProviderUrl_ok_iff (provider apiKey : String) (c : Int) :
    (∃ u, getProviderUrl provider apiKey c = .ok u) ↔
      c ∈ networkIds ∧ provider ∈ ["infura", "alchemy", "quicknode"] := by
  by_cases hc : c ∈ networkIds
  · obtain ⟨n, hn, -, ht⟩ := notNetworkName_of_mem c hc
    rw [getProviderUrl_of_get provider apiKey c n hn ht]
    by_cases h1 : provider = "infura"
    · simp [h1, hc]
    · by_cases h2 : provider = "alchemy"
      · simp [h2, hc]
      · by_cases h3 : provider = "quicknode"
        · simp [h3, hc]
        · simp [h1, h2, h3, hc]
  · have hnone := (networksGet_eq_none_iff c).mpr hc
    simp [getProviderUrl, hnone, notNetworkName, hc]

/-- Two lists that agree after a separator absent from both prefixes have the
same prefix and the same remainder. -/
theorem split_at_sep {α : Type} (c : α) :
    ∀ (a b r s : List α), c ∉ a → c ∉ b → a ++ c :: r = b ++ c :: s → a = b ∧ r = s := by
  intro a
  induction a with
  | nil =>
    intro b r s _ hb h
    cases b with
    | nil => simpa using h
    | cons x b =>
      simp only [List.nil_append, List.cons_append, List.cons.injEq] at h
      exact absurd (h.1 ▸ List.mem_cons_self _ _) hb
  | cons x a ih =>
    intro b r s ha hb h
    cases b with
    | nil =>
      simp only [List.nil_append, List.cons_append, List.cons.injEq] at h
      exact absurd (h.1 ▸ List.mem_cons_self _ _) ha
    | cons y b =>
      simp only [List.cons_append, List.cons.injEq] at h
      obtain ⟨rfl, h⟩ := h
      have hrec := ih b r s (fun m => ha (List.mem_cons_of_mem _ m))
        (fun m => hb (List.mem_cons_of_mem _ m)) h
      exact ⟨by rw [hrec.1], hrec.2⟩

/-- No network name contains a dot. -/
theorem networks_no_dot : ∀ p ∈ networks, '.' ∉ p.2.data := by decide

/-- Distinct table keys carry distinct names. -/
theorem networks_name_inj : ∀ p ∈ networks, ∀ q ∈ networks, p.2 = q.2 → p.1 = q.1 := by
  decide

theorem getProviderUrl_data (provider apiKey : String) (c : Int) (n : String)
    (hp : provider ∈ ["infura", "alchemy", "quicknode"])
    (hn : networksGet c = some n) (ht : notNetworkName (some n) = false) :
    ∃ u, getProviderUrl provider apiKey c = .ok u ∧
      u.data = "https://".data ++ (n.data ++ '.' :: hostTail provider apiKey) := by
  rw [getProviderUrl_of_get provider apiKey c n hn ht]
  simp only [List.mem_cons, List.mem_singleton, List.not_mem_nil, or_false] at hp
  rcases hp with rfl | rfl | rfl
  · exact ⟨_, rfl, by simp [hostTail, String.data_append]⟩
  · exact ⟨_, rfl, by simp [hostTail, String.data_append]⟩
  · exact ⟨_, rfl, by simp [hostTail, String.data_append]⟩

theorem hostTail_inj (p1 p2 k1 k2 : String)
    (h1 : p1 ∈ ["infura", "alchemy", "quicknode"])
    (h2 : p2 ∈ ["infura", "alchemy", "quicknode"])
    (h : hostTail p1 k1 = hostTail p2 k2) : p1 = p2 ∧ k1 = k2 := by
  simp only [List.mem_cons, List.mem_singleton, List.not_mem_nil, or_false] at h1 h2
  rcases h1 with rfl | rfl | rfl <;> rcases h2 with rfl | rfl | rfl <;>
    simp [hostTail, String.ext_iff] at h ⊢ <;> exact h

/-! ## Lemmas on `Async` -/

theorem Async.run_bind {α β : Type} (m : Async α) (f : α → Async β) (calls : List Call) :
    (m >>= f).run calls =
      match m.run calls with
      | (.ok a, calls) => (f a).run calls
      | (.error e, calls) => (.error e, calls) := rfl

theorem Async.run_pure {α : Type} (a : α) (calls : List Call) :
    (Pure.pure a : Async α).run calls = (.ok a, calls) := rfl

theorem Async.run_await_bind_ok {α β : Type} (call : Call) (a : α) (f : α → Async β)
    (calls : List Call) :
    (Async.await call (.ok a) >>= f).run calls = (f a).run (calls ++ [call]) := rfl

theorem Async.run_await_bind_error {α β : Type} (call : Call) (e : JSError) (f : α → Async β)
    (calls : List Call) :
    (Async.await call (.error e : Except JSError α) >>= f).run calls =
      (.error e, calls ++ [call]) := rfl

theorem Async.run_lift_bind_ok {α β : Type} (a : α) (f : α → Async β) (calls : List Call) :
    (Async.lift (.ok a) >>= f).run calls = (f a).run calls := rfl

theorem Async.run_lift_bind_error {α β : Type} (e : JSError) (f : α → Async β)
    (calls : List Call) :
    (Async.lift (.error e : Except JSError α) >>= f).run calls = (.error e, calls) := rfl

/-! ## Lemmas on the history loop -/

theorem getTransactionHistory.loop_neg {τ : Type} (provider : Provider τ) (address : String)
    (i : Int) (transactions : List τ) (h : i < 0) :
    getTransactionHistory.loop provider address i transactions = Pure.pure transactions := by
  rw [getTransactionHistory.loop, if_neg (by omega)]

theorem getTransactionHistory.loop_ok {τ : Type} (provider : Provider τ) (address : String)
    (i : Int) (transactions : List τ) (t : τ) (calls : List Call) (h : 0 ≤ i)
    (ht : provider.getTransactionByNonce address i = .ok t) :
    (getTransactionHistory.loop provider address i transactions).run calls =
      (getTransactionHistory.loop provider address (i - 1) (transactions ++ [t])).run
        (calls ++ [.getTransactionByNonce address i]) := by
  rw [getTransactionHistory.loop, if_pos (by omega), ht, Async.run_await_bind_ok]

theorem getTransactionHistory.loop_error {τ : Type} (provider : Provider τ) (address : String)
    (i : Int) (transactions : List τ) (e : JSError) (calls : List Call) (h : 0 ≤ i)
    (he : provider.getTransactionByNonce address i = .error e) :
    (getTransactionHistory.loop provider address i transactions).run calls =
      (.error e, calls ++ [.getTransactionByNonce address i]) := by
  rw [getTransactionHistory.loop, if_pos (by omega), he, Async.run_await_bind_error]

/-- Reindexing of a descending enumeration when its length grows by one. -/
theorem map_range_desc_succ {β : Type} (g : Int → β) (n : Nat) :
    (List.range (n + 1)).map (fun j : Nat => g (((n + 1 : Nat) : Int) - 1 - j)) =
      g n :: (List.range n).map (fun j : Nat => g ((n : Int) - 1 - j)) := by
  rw [List.range_succ_eq_map, List.map_cons, List.map_map]
  refine congrArg₂ List.cons ?_ (List.map_congr_left ?_)
  · congr 1; push_cast; ring
  · intro j _
    simp only [Function.comp_apply]
    congr 1; push_cast; ring

/-- When every lookup below `n` succeeds, the loop entered at `n - 1` performs
the `n` lookups in descending order and returns their results. -/
theorem getTransactionHistory.loop_all_ok {τ : Type} (provider : Provider τ) (address : String)
    (r : Int → τ) :
    ∀ (n : Nat) (transactions : List τ) (calls : List Call),
      (∀ j : Int, 0 ≤ j → j < n → provider.getTransactionByNonce address j = .ok (r j)) →
      (getTransactionHistory.loop provider address ((n : Int) - 1) transactions).run calls =
        (.ok (transactions ++ (List.range n).map (fun j : Nat => r ((n : Int) - 1 - j))),
          calls ++ (List.range n).map
            (fun j : Nat => Call.getTransactionByNonce address ((n : Int) - 1 - j))) := by
  intro n
  induction n with
  | zero =>
    intro transactions calls _
    rw [getTransactionHistory.loop_neg _ _ _ _ (by simp)]
    simp [Async.run_pure]
  | succ n ih =>
    intro transactions calls h
    have hn : provider.getTransactionByNonce address (n : Int) = .ok (r n) :=
      h n (by omega) (by push_cast; omega)
    have hi : (((n + 1 : Nat) : Int) - 1) = (n : Int) := by push_cast; ring
    rw [map_range_desc_succ r n,
      map_range_desc_succ (fun i => Call.getTransactionByNonce address i) n, hi,
      getTransactionHistory.loop_ok _ _ _ _ (r n) _ (by omega) hn,
      ih _ _ (fun j h0 hj => h j h0 (by push_cast; omega))]
    simp

/-- When the lookup at `i` fails and the `d` lookups above it succeed, the loop
entered at `i + d` throws after the lookups `i + d, ..., i`. -/
theorem getTransactionHistory.loop_fail {τ : Type} (provider : Provider τ) (address : String)
    (i : Nat) (e : JSError)
    (he : provider.getTransactionByNonce address (i : Int) = .error e) :
    ∀ (d : Nat) (transactions : List τ) (calls : List Call),
      (∀ j : Int, (i : Int) < j → j ≤ i + d →
        ∃ t, provider.getTransactionByNonce address j = .ok t) →
      (getTransactionHistory.loop provider address ((i : Int) + d) transactions).run calls =
        (.error e, calls ++ (List.range (d + 1)).map
          (fun j : Nat => Call.getTransactionByNonce address ((i : Int) + d - j))) := by
  intro d
  induction d with
  | zero =>
    intro transactions calls _
    simp only [Nat.cast_zero, add_zero]
    rw [getTransactionHistory.loop_error _ _ _ _ e _ (by omega) he]
    simp [List.range_succ]
  | succ d ih =>
    intro transactions calls h
    obtain ⟨t, ht⟩ := h ((i : Int) + (d + 1 : Nat)) (by push_cast; omega) (by push_cast; omega)
    have hi : ((i : Int) + (d + 1 : Nat)) - 1 = (i : Int) + d := by push_cast; ring
    rw [getTransactionHistory.loop_ok _ _ _ _ t _ (by omega) ht, hi,
      ih _ _ (fun j h0 hj => h j h0 (by push_cast; omega))]
    have hl : (List.range (d + 1 + 1)).map
        (fun j : Nat => Call.getTransactionByNonce address ((i : Int) + (d + 1 : Nat) - j)) =
        Call.getTransactionByNonce address ((i : Int) + (d + 1 : Nat)) ::
          (List.range (d + 1)).map
            (fun j : Nat => Call.getTransactionByNonce address ((i : Int) + d - j)) := by
      rw [List.range_succ_eq_map, List.map_cons, List.map_map]
      refine congrArg₂ List.cons ?_ (List.map_congr_left ?_)
      · simp
      · intro j _
        simp only [Function.comp_apply]
        congr 1; push_cast; ring
    rw [hl]
    simp

/-! ## Lemmas on the NFT loop -/

theorem nftLoop_done {ρ : Type} (contract : Contract) (web : Web ρ) (tokenAt : Nat → Async Nat)
    (count i : Nat) (nfts : List NFT) (h : ¬ i < count) :
    nftLoop contract web tokenAt count i nfts = Pure.pure nfts := by
  rw [nftLoop, if_neg h]

/-- One successful iteration of the loop. -/
theorem nftLoop_step {ρ : Type} (contract : Contract) (web : Web ρ) (callAt : Nat → Call)
    (outcomeAt : Nat → Except JSError Nat) (count i : Nat) (nfts : List NFT)
    (calls : List Call) (tokenId : Nat) (uri : String) (response : ρ) (metadata : JSValue)
    (nft : NFT) (h : i < count) (h1 : outcomeAt i = .ok tokenId)
    (h2 : contract.tokenURI tokenId = .ok uri) (h3 : web.fetch uri = .ok response)
    (h4 : web.json response = .ok metadata) (h5 : nftEntry tokenId metadata = .ok nft) :
    (nftLoop contract web (fun j => Async.await (callAt j) (outcomeAt j)) count i nfts).run calls =
      (nftLoop contract web (fun j => Async.await (callAt j) (outcomeAt j)) count (i + 1)
        (nfts ++ [nft])).run (calls ++ [callAt i, .tokenURI tokenId, .fetch uri]) := by
  rw [nftLoop, if_pos h]
  simp only [h1, Async.run_await_bind_ok, h2, h3, h4, Async.run_lift_bind_ok, h5,
    List.append_assoc, List.singleton_append, List.cons_append, List.nil_append]

/-- When every call of every iteration succeeds and every entry can be built,
the loop entered at `i` runs the remaining `k` iterations in ascending order. -/
theorem nftLoop_all_ok {ρ : Type} (contract : Contract) (web : Web ρ) (callAt : Nat → Call)
    (outcomeAt : Nat → Except JSError Nat) (count : Nat) (tok : Nat → Nat) (uri : Nat → String)
    (resp : Nat → ρ) (meta : Nat → JSValue) (nft : Nat → NFT)
    (h : ∀ j, j < count → outcomeAt j = .ok (tok j) ∧ contract.tokenURI (tok j) = .ok (uri j) ∧
      web.fetch (uri j) = .ok (resp j) ∧ web.json (resp j) = .ok (meta j) ∧
      nftEntry (tok j) (meta j) = .ok (nft j)) :
    ∀ (k i : Nat) (nfts : List NFT) (calls : List Call), i + k = count →
      (nftLoop contract web (fun j => Async.await (callAt j) (outcomeAt j)) count i nfts).run
          calls =
        (.ok (nfts ++ (List.range' i k).map nft),
          calls ++ (List.range' i k).flatMap
            (fun j => [callAt j, Call.tokenURI (tok j), Call.fetch (uri j)])) := by
  intro k
  induction k with
  | zero =>
    intro i nfts calls hik
    rw [nftLoop_done _ _ _ _ _ _ (by omega)]
    simp [Async.run_pure]
  | succ k ih =>
    intro i nfts calls hik
    obtain ⟨h1, h2, h3, h4, h5⟩ := h i (by omega)
    rw [nftLoop_step contract web callAt outcomeAt count i nfts calls _ _ _ _ _ (by omega)
      h1 h2 h3 h4 h5, ih (i + 1) _ _ (by omega)]
    simp [List.range'_succ]

/-- Every entry of a returned list was either already collected or built by
`nftEntry` from a document fetched from the token's URI. -/
theorem nftLoop_entries {ρ : Type} (contract : Contract) (web : Web ρ)
    (tokenAt : Nat → Async Nat) (count : Nat) :
    ∀ (k i : Nat) (nfts : List NFT) (calls : List Call) (result : List NFT)
      (calls' : List Call), i + k = count →
      (nftLoop contract web tokenAt count i nfts).run calls = (.ok result, calls') →
      ∀ nft ∈ result, nft ∈ nfts ∨ ∃ tokenId uri response metadata,
        contract.tokenURI tokenId = .ok uri ∧ web.fetch uri = .ok response ∧
        web.json response = .ok metadata ∧ nftEntry tokenId metadata = .ok nft := by
  intro k
  induction k with
  | zero =>
    intro i nfts calls result calls' hik hrun nft hmem
    rw [nftLoop_done _ _ _ _ _ _ (by omega), Async.run_pure] at hrun
    simp only [Prod.mk.injEq, Except.ok.injEq] at hrun
    exact Or.inl (hrun.1 ▸ hmem)
  | succ k ih =>
    intro i nfts calls result calls' hik hrun nft hmem
    rw [nftLoop, if_pos (by omega), Async.run_bind] at hrun
    rcases ht : (tokenAt i).run calls with ⟨_ | tokenId, c1⟩
    · rw [ht] at hrun; simp at hrun
    rw [ht] at hrun
    simp only at hrun
    rcases h2 : contract.tokenURI tokenId with _ | uri
    · rw [h2, Async.run_await_bind_error] at hrun; simp at hrun
    rw [h2, Async.run_await_bind_ok] at hrun
    rcases h3 : web.fetch uri with _ | response
    · rw [h3, Async.run_await_bind_error] at hrun; simp at hrun
    rw [h3, Async.run_await_bind_ok] at hrun
    rcases h4 : web.json response with _ | metadata
    · rw [h4, Async.run_lift_bind_error] at hrun; simp at hrun
    rw [h4, Async.run_lift_bind_ok] at hrun
    rcases h5 : nftEntry tokenId metadata with _ | entry
    · rw [h5, Async.run_lift_bind_error] at hrun; simp at hrun
    rw [h5, Async.run_lift_bind_ok] at hrun
    rcases ih (i + 1) _ _ result calls' (by omega) hrun nft hmem with hin | hbuilt
    · rcases List.mem_append.mp hin with hold | hnew
      · exact Or.inl hold
      · rw [List.mem_singleton] at hnew
        exact Or.inr ⟨tokenId, uri, response, metadata, h2, h3, h4, hnew ▸ h5⟩
    · exact Or.inr hbuilt

/-! ## Lemmas on `nftEntry` -/

/-- On a document other than `null` and `undefined` the entry is built, and each
of its four fields is the metadata field when present and truthy, the
placeholder otherwise. -/
theorem nftEntry_ok (tokenId : Nat) (metadata : JSValue) (h0 : metadata ≠ .null)
    (h1 : metadata ≠ .undefined) :
    nftEntry tokenId metadata = .ok
      { tokenId := toString tokenId
        name := fieldOr metadata "name" "NFT sin nombre"
        description := fieldOr metadata "description" "NFT sin descripción"
        image := fieldOr metadata "image" "NFT sin imagen"
        attributes := fieldOr metadata "attributes" "NFT sin atributos" } := by
  have hor : ∀ (o : Option JSValue) (p : String),
      JSValue.or (o.getD .undefined) (.string p) =
        (match o with
        | some v => if v.truthy then v else .string p
        | none => .string p) := by
    intro o p
    cases o <;> simp [JSValue.or, JSValue.truthy]
  cases metadata with
  | undefined => exact absurd rfl h1
  | null => exact absurd rfl h0
  | object fields =>
    simp only [nftEntry, JSValue.getProp, bind, Except.bind, Pure.pure, Except.pure, fieldOr, hor]
  | bool b => rfl
  | number x => rfl
  | string t => rfl
  | array items => rfl

/-- Reading `metadata.name` throws on `null` and on `undefined`. -/
theorem nftEntry_nullish (tokenId : Nat) (metadata : JSValue)
    (h : metadata = .null ∨ metadata = .undefined) :
    ∃ e, nftEntry tokenId metadata = .error e := by
  rcases h with rfl | rfl
  · exact ⟨_, rfl⟩
  · exact ⟨_, rfl⟩

theorem nftEntry_eq_ok (tokenId : Nat) (metadata : JSValue) (nft : NFT)
    (h : nftEntry tokenId metadata = .ok nft) :
    nft =
      { tokenId := toString tokenId
        name := fieldOr metadata "name" "NFT sin nombre"
        description := fieldOr metadata "description" "NFT sin descripción"
        image := fieldOr metadata "image" "NFT sin imagen"
        attributes := fieldOr metadata "attributes" "NFT sin atributos" } := by
  by_cases h0 : metadata = .null
  · obtain ⟨e, he⟩ := nftEntry_nullish tokenId metadata (Or.inl h0)
    rw [he] at h; cases h
  by_cases h1 : metadata = .undefined
  · obtain ⟨e, he⟩ := nftEntry_nullish tokenId metadata (Or.inr h1)
    rw [he] at h; cases h
  rw [nftEntry_ok tokenId metadata h0 h1] at h
  injection h with h
  exact h.symm

/-- A field computed with a non-empty placeholder is truthy. -/
theorem fieldOr_truthy (metadata : JSValue) (key placeholder : String)
    (hp : placeholder ≠ "") : (fieldOr metadata key placeholder).truthy = true := by
  have hs : (JSValue.string placeholder).truthy = true := by simp [JSValue.truthy, hp]
  unfold fieldOr
  split
  · split
    · split
      · assumption
      · exact hs
    · exact hs
  · exact hs

/-- A truthy value is none of the falsy values. -/
theorem truthy_ne_falsy (v : JSValue) (h : v.truthy = true) :
    v ≠ .undefined ∧ v ≠ .null ∧ v ≠ .bool false ∧ v ≠ .number 0 ∧ v ≠ .string "" := by
  refine ⟨?_, ?_, ?_, ?_, ?_⟩ <;> rintro rfl <;> simp [JSValue.truthy] at h

/-! ## Lemmas on the decimal conversion -/

theorem isDigit_ne_point (c : Char) (h : c.isDigit = true) : (c != '.') = true := by
  rw [bne_iff_ne]
  rintro rfl
  exact absurd h (by decide)

theorem isDigit_ne_minus (c : Char) (h : c.isDigit = true) : c ≠ '-' := by
  rintro rfl
  exact absurd h (by decide)

theorem takeWhile_digits (w rest : List Char) (hw : ∀ c ∈ w, c.isDigit = true)
    (hr : rest = [] ∨ ∃ f, rest = '.' :: f) :
    (w ++ rest).takeWhile (fun c => c != '.') = w ∧
      (w ++ rest).dropWhile (fun c => c != '.') = rest := by
  induction w with
  | nil =>
    rcases hr with rfl | ⟨f, rfl⟩
    · simp
    · simp [List.takeWhile, List.dropWhile]
  | cons a w ih =>
    have ha := isDigit_ne_point a (hw a (List.mem_cons_self _ _))
    have := ih (fun c hc => hw c (List.mem_cons_of_mem _ hc))
    simp only [List.cons_append, List.takeWhile_cons, List.dropWhile_cons, ha, if_true, this.1,
      this.2, and_self]

/-- The conversion of a string made of an optional sign, digit characters and,
after an optional point, at most `decimals` digit characters. -/
theorem parseFixed_chars (neg : Bool) (whole : List Char) (point : Bool) (fraction : List Char)
    (decimals : Nat) (hw : ∀ c ∈ whole, c.isDigit = true)
    (hf : ∀ c ∈ fraction, c.isDigit = true) (hne : whole ≠ [] ∨ fraction ≠ [])
    (hpt : point = false → fraction = []) (hlen : fraction.length ≤ decimals) :
    parseFixed
        ⟨(if neg then ['-'] else []) ++ (whole ++ (if point then '.' :: fraction else []))⟩
        decimals =
      .ok (if neg then
          -((digitsValue whole : Int) * 10 ^ decimals +
            (digitsValue fraction : Int) * 10 ^ (decimals - fraction.length))
        else
          (digitsValue whole : Int) * 10 ^ decimals +
            (digitsValue fraction : Int) * 10 ^ (decimals - fraction.length)) := by
  have hrest : (if point then '.' :: fraction else []) = [] ∨
      ∃ f, (if point then '.' :: fraction else []) = '.' :: f := by
    cases point <;> simp
  have htail : (if point then '.' :: fraction else ([] : List Char)).tail = fraction := by
    cases point
    · simp [hpt rfl]
    · simp
  obtain ⟨htake, hdrop⟩ := takeWhile_digits whole _ hw hrest
  have hhead : (whole ++ (if point then '.' :: fraction else [])).head? ≠ some '-' := by
    cases whole with
    | nil =>
      cases point
      · rcases hne with h | h
        · exact absurd rfl h
        · exact absurd (hpt rfl) h
      · simp
    | cons a w =>
      simp only [List.cons_append, List.head?_cons, ne_eq, Option.some.injEq]
      exact isDigit_ne_minus a (hw a (List.mem_cons_self _ _))
  have hall : (whole.all Char.isDigit && fraction.all Char.isDigit) = true := by
    simp only [Bool.and_eq_true, List.all_eq_true]
    exact ⟨hw, hf⟩
  have hemp : (whole.isEmpty && fraction.isEmpty) = false := by
    rcases hne with h | h
    · cases whole with
      | nil => exact absurd rfl h
      | cons a w => simp
    · cases fraction with
      | nil => exact absurd rfl h
      | cons a w => simp
  cases neg
  · simp only [parseFixed, Bool.false_eq_true, if_false, List.nil_append]
    have hb : ((whole ++ (if point then '.' :: fraction else [])).head? == some '-') = false := by
      simpa using hhead
    simp only [hb, Bool.false_eq_true, if_false, htake, hdrop, htail, hall, hemp,
      Bool.not_true, Bool.or_false, not_lt.mpr hlen, gt_iff_lt]
  · simp only [parseFixed, if_true, List.singleton_append, List.head?_cons,
      beq_self_eq_true, List.tail_cons, htake, hdrop, htail, hall, hemp,
      Bool.not_true, Bool.or_false, not_lt.mpr hlen, gt_iff_lt, Bool.false_eq_true, if_false]

theorem digitChar_isDigit : ∀ x, x < 10 → (Nat.digitChar x).isDigit = true := by decide

theorem digitChar_toNat : ∀ x, x < 10 → (Nat.digitChar x).toNat - 48 = x := by decide

/-- Reading the characters of a digit list gives its value in base ten. -/
theorem foldl_digitChar (ds : List Nat) (hds : ∀ x ∈ ds, x < 10) :
    ∀ acc : Nat,
      (ds.map Nat.digitChar).foldl (fun acc c => 10 * acc + (c.toNat - 48)) acc =
        acc * 10 ^ ds.length + Nat.ofDigits 10 ds.reverse := by
  induction ds with
  | nil => intro acc; simp
  | cons x t ih =>
    intro acc
    have hx := digitChar_toNat x (hds x (List.mem_cons_self _ _))
    rw [List.map_cons, List.foldl_cons, hx, ih (fun y hy => hds y (List.mem_cons_of_mem _ hy)),
      List.reverse_cons, Nat.ofDigits_append, Nat.ofDigits_singleton, List.length_reverse,
      List.length_cons]
    ring

theorem digitsValue_digitChar (ds : List Nat) (hds : ∀ x ∈ ds, x < 10) :
    digitsValue (ds.map Nat.digitChar) = Nat.ofDigits 10 ds.reverse := by
  unfold digitsValue
  rw [foldl_digitChar ds hds 0]
  simp

/-- Scaling an integer part and a fractional part of `len` digits by
`10 ^ decimals` is exact when `len ≤ decimals`. -/
theorem scale_exact (W F len decimals : Nat) (h : len ≤ decimals) :
    ((((W : Int) * 10 ^ decimals + (F : Int) * 10 ^ (decimals - len) : Int)) : ℚ) =
      ((W : ℚ) + (F : ℚ) / 10 ^ len) * 10 ^ decimals := by
  have hp : (10 : ℚ) ^ decimals = 10 ^ len * 10 ^ (decimals - len) := by
    rw [← pow_add]; congr 1; omega
  push_cast
  rw [hp]
  field_simp
  ring

/-- The conversion is exact on every well-formed numeral with at most
`decimals` fractional digits. -/
theorem parseFixed_exact (d : Decimal) (decimals : Nat) (hd : d.WellFormed)
    (hlen : d.fraction.length ≤ decimals) :
    ∃ wei : Int, parseFixed d.text decimals = .ok wei ∧
      (wei : ℚ) = d.value * 10 ^ decimals := by
  obtain ⟨hw, hf, hne, hpt⟩ := hd
  obtain ⟨neg, whole, point, fraction⟩ := d
  simp only at hw hf hne hpt hlen
  have hrun := parseFixed_chars neg (whole.map Nat.digitChar) point
    (fraction.map Nat.digitChar) decimals
    (fun c hc => by
      obtain ⟨x, hx, rfl⟩ := List.mem_map.mp hc
      exact digitChar_isDigit x (hw x hx))
    (fun c hc => by
      obtain ⟨x, hx, rfl⟩ := List.mem_map.mp hc
      exact digitChar_isDigit x (hf x hx))
    (by simpa using hne) (fun h => by simp [hpt h]) (by simpa using hlen)
  rw [digitsValue_digitChar whole hw, digitsValue_digitChar fraction hf,
    List.length_map] at hrun
  have hval := scale_exact (Nat.ofDigits 10 whole.reverse) (Nat.ofDigits 10 fraction.reverse)
    fraction.length decimals hlen
  refine ⟨_, hrun, ?_⟩
  cases neg
  · simp only [Decimal.value, Bool.false_eq_true, if_false, one_mul]
    exact hval
  · simp only [Decimal.value, if_true]
    rw [Int.cast_neg, hval]; ring

/-! ## Resolver claims -/

/-- C1: for a chain id that is not a key of the network table, whatever the
provider name (recognised or not) and the API key, `getProviderUrl` throws
`Error('Network ID not supported')` and yields no URL: the network test comes
before the provider is inspected. -/
theorem getProviderUrl_unsupported_network (provider apiKey : String) (network : Int)
    (h : network ∉ networkIds) :
    getProviderUrl provider apiKey network = .error (.error "Network ID not supported") ∧
      ∀ url, getProviderUrl provider apiKey network ≠ .ok url := by
  have hnone := (networksGet_eq_none_iff network).mpr h
  have he : getProviderUrl provider apiKey network =
      .error (.error "Network ID not supported") := by
    simp [getProviderUrl, hnone, notNetworkName]
  exact ⟨he, fun url hu => by rw [he] at hu; cases hu⟩

theorem getProviderUrl_unsupported_network_witness :
    (2 : Int) ∉ networkIds ∧
      (getProviderUrl "nobody" "KEY" 2 = .error (.error "Network ID not supported") ∧
        ∀ url, getProviderUrl "nobody" "KEY" 2 ≠ .ok url) :=
  ⟨by decide, getProviderUrl_unsupported_network "nobody" "KEY" 2 (by decide)⟩

/-- C2: for a provider name other than infura, alchemy and quicknode, any API
key and any chain id that is a key of the network table, `getProviderUrl`
throws `Error('Provider not supported')` and yields no URL. -/
theorem getProviderUrl_unsupported_provider (provider apiKey : String) (network : Int)
    (hp : provider ∉ ["infura", "alchemy", "quicknode"]) (hc : network ∈ networkIds) :
    getProviderUrl provider apiKey network = .error (.error "Provider not supported") ∧
      ∀ url, getProviderUrl provider apiKey network ≠ .ok url := by
  obtain ⟨n, hn, -, ht⟩ := notNetworkName_of_mem network hc
  simp only [List.mem_cons, List.mem_singleton, List.not_mem_nil, or_false, not_or] at hp
  have he : getProviderUrl provider apiKey network =
      .error (.error "Provider not supported") := by
    rw [getProviderUrl_of_get provider apiKey network n hn ht]
    simp [hp.1, hp.2.1, hp.2.2]
  exact ⟨he, fun url hu => by rw [he] at hu; cases hu⟩

theorem getProviderUrl_unsupported_provider_witness :
    "ankr" ∉ ["infura", "alchemy", "quicknode"] ∧ (137 : Int) ∈ networkIds ∧
      (getProviderUrl "ankr" "KEY" 137 = .error (.error "Provider not supported") ∧
        ∀ url, getProviderUrl "ankr" "KEY" 137 ≠ .ok url) :=
  ⟨by decide, by decide,
    getProviderUrl_unsupported_provider "ankr" "KEY" 137 (by decide) (by decide)⟩

/-- C3: for each of the ten table entries (chain id, network name) and every API
key, `getProviderUrl` returns the infura, alchemy and quicknode URL of the
documented shape; in particular the two worked examples of the specification
hold. -/
theorem getProviderUrl_url_shape (c : Int) (n apiKey : String)
    (h : (c, n) ∈ [((1 : Int), "mainnet"), (3, "ropsten"), (4, "rinkeby"), (5, "goerli"),
      (42, "kovan"), (56, "bsc"), (97, "bsc-testnet"), (100, "xdai"), (137, "matic"),
      (80001, "mumbai")]) :
    getProviderUrl "infura" apiKey c = .ok ("https://" ++ n ++ ".infura.io/v3/" ++ apiKey) ∧
    getProviderUrl "alchemy" apiKey c = .ok ("https://" ++ n ++ ".alchemyapi.io/v2/" ++ apiKey) ∧
    getProviderUrl "quicknode" apiKey c =
      .ok ("https://" ++ n ++ ".quiknode.pro/" ++ apiKey ++ "/") ∧
    getProviderUrl "infura" "KEY" 1 = .ok "https://mainnet.infura.io/v3/KEY" ∧
    getProviderUrl "quicknode" "KEY" 137 = .ok "https://matic.quiknode.pro/KEY/" := by
  have hget : networksGet c = some n ∧ notNetworkName (some n) = false := by
    simp only [List.mem_cons, List.mem_singleton, List.not_mem_nil, or_false,
      Prod.mk.injEq] at h
    rcases h with h | h | h | h | h | h | h | h | h | h <;> obtain ⟨rfl, rfl⟩ := h <;>
      exact ⟨rfl, by decide⟩
  refine ⟨?_, ?_, ?_, by rfl, by rfl⟩
  · rw [getProviderUrl_of_get _ apiKey c n hget.1 hget.2]; simp
  · rw [getProviderUrl_of_get _ apiKey c n hget.1 hget.2]; simp
  · rw [getProviderUrl_of_get _ apiKey c n hget.1 hget.2]; simp

theorem getProviderUrl_url_shape_witness :
    getProviderUrl "alchemy" "abc/1.2" 97 = .ok "https://bsc-testnet.alchemyapi.io/v2/abc/1.2" :=
  (getProviderUrl_url_shape 97 "bsc-testnet" "abc/1.2" (by decide)).2.1

/-- C4 as stated fails: the network table has ten entries, not eleven, and the
set of chain ids on which `getProviderUrl` succeeds for a recognised provider
does not have eleven elements. -/
theorem networks_not_eleven :
    networks.length ≠ 11 ∧
      Set.ncard {c : Int | ∃ u, getProviderUrl "infura" "KEY" c = .ok u} ≠ 11 := by
  refine ⟨by decide, ?_⟩
  have hs : {c : Int | ∃ u, getProviderUrl "infura" "KEY" c = .ok u} =
      ((networkIds.toFinset : Finset Int) : Set Int) := by
    ext c
    simp [getProviderUrl_ok_iff]
  rw [hs, Set.ncard_coe_Finset]
  decide

/-- C4, amended: the network table has exactly ten entries, with pairwise
distinct keys, and for every recognised provider and every API key the set of
chain ids on which `getProviderUrl` succeeds has exactly ten elements, namely
the keys 1, 3, 4, 5, 42, 56, 97, 100, 137 and 80001. -/
theorem networks_exactly_ten (provider apiKey : String)
    (hp : provider ∈ ["infura", "alchemy", "quicknode"]) :
    networks.length = 10 ∧ networkIds.Nodup ∧
      {c : Int | ∃ u, getProviderUrl provider apiKey c = .ok u} =
        {1, 3, 4, 5, 42, 56, 97, 100, 137, 80001} ∧
      Set.ncard {c : Int | ∃ u, getProviderUrl provider apiKey c = .ok u} = 10 := by
  have hs : {c : Int | ∃ u, getProviderUrl provider apiKey c = .ok u} =
      ((networkIds.toFinset : Finset Int) : Set Int) := by
    ext c
    simp [getProviderUrl_ok_iff, hp]
  refine ⟨by decide, by decide, ?_, ?_⟩
  · ext c
    simp [getProviderUrl_ok_iff, hp, networkIds_eq]
  · rw [hs, Set.ncard_coe_Finset]
    decide

theorem networks_exactly_ten_witness :
    Set.ncard {c : Int | ∃ u, getProviderUrl "quicknode" "KEY" c = .ok u} = 10 :=
  (networks_exactly_ten "quicknode" "KEY" (by decide)).2.2.2

/-- C9: `getProviderUrl` is injective on its successful inputs: for recognised
providers, chain ids of the network table and arbitrary API keys (which may
contain '/' or '.'), equal results force equal provider, chain id and key. -/
theorem getProviderUrl_injective (p1 p2 k1 k2 : String) (c1 c2 : Int)
    (hp1 : p1 ∈ ["infura", "alchemy", "quicknode"])
    (hp2 : p2 ∈ ["infura", "alchemy", "quicknode"])
    (hc1 : c1 ∈ networkIds) (hc2 : c2 ∈ networkIds)
    (h : getProviderUrl p1 k1 c1 = getProviderUrl p2 k2 c2) :
    p1 = p2 ∧ c1 = c2 ∧ k1 = k2 := by
  obtain ⟨n1, hn1, hm1, ht1⟩ := notNetworkName_of_mem c1 hc1
  obtain ⟨n2, hn2, hm2, ht2⟩ := notNetworkName_of_mem c2 hc2
  obtain ⟨u1, hu1, hd1⟩ := getProviderUrl_data p1 k1 c1 n1 hp1 hn1 ht1
  obtain ⟨u2, hu2, hd2⟩ := getProviderUrl_data p2 k2 c2 n2 hp2 hn2 ht2
  rw [hu1, hu2] at h
  have hu : u1 = u2 := by injection h
  rw [hu, hd2] at hd1
  have hbody := List.append_cancel_left hd1
  obtain ⟨hn, htail⟩ := split_at_sep '.' _ _ _ _ (networks_no_dot _ hm2)
    (networks_no_dot _ hm1) hbody
  obtain ⟨hp, hk⟩ := hostTail_inj p1 p2 k1 k2 hp1 hp2 htail.symm
  have hname : n1 = n2 := (String.ext hn).symm
  exact ⟨hp, networks_name_inj _ hm1 _ hm2 hname, hk⟩

theorem getProviderUrl_injective_witness :
    getProviderUrl "infura" "a/b" 56 = getProviderUrl "infura" "a/b" 56 ∧
      ("infura" = "infura" ∧ (56 : Int) = 56 ∧ "a/b" = "a/b") :=
  ⟨rfl, getProviderUrl_injective "infura" "infura" "a/b" "a/b" 56 56 (by decide) (by decide)
    (by decide) (by decide) rfl⟩

/-! ## Transaction history claims -/

/-- C5: when the provider reports the transaction count `N ≥ 0` and every lookup
at a nonce below `N` succeeds, `getTransactionHistory` issues, after the count
query, exactly the `N` lookups at nonces `N-1, N-2, ..., 0` in that order and
returns the list of their results in the same order: its length is `N` and its
element `j` is the result for nonce `N-1-j` (the empty list when `N = 0`). -/
theorem getTransactionHistory_all_succeed {τ : Type} (provider : Provider τ)
    (address : String) (N : Nat) (r : Int → τ)
    (hN : provider.getTransactionCount address = .ok (N : Int))
    (hr : ∀ j : Int, 0 ≤ j → j < N → provider.getTransactionByNonce address j = .ok (r j)) :
    (getTransactionHistory provider address).exec =
      (.ok ((List.range N).map (fun j : Nat => r ((N : Int) - 1 - j))),
        Call.getTransactionCount address ::
          (List.range N).map
            (fun j : Nat => Call.getTransactionByNonce address ((N : Int) - 1 - j))) ∧
    ((List.range N).map (fun j : Nat => r ((N : Int) - 1 - j))).length = N := by
  refine ⟨?_, by simp⟩
  unfold getTransactionHistory Async.exec
  rw [hN, Async.run_await_bind_ok, getTransactionHistory.loop_all_ok provider address r N _ _ hr]
  simp

theorem getTransactionHistory_all_succeed_witness :
    (getTransactionHistory
        (⟨fun _ => .ok 3, fun _ i => .ok (100 + i)⟩ : Provider Int) "0xA").exec =
      (.ok [102, 101, 100],
        [Call.getTransactionCount "0xA", Call.getTransactionByNonce "0xA" 2,
          Call.getTransactionByNonce "0xA" 1, Call.getTransactionByNonce "0xA" 0]) := by
  have h := (getTransactionHistory_all_succeed
    (⟨fun _ => .ok 3, fun _ i => .ok (100 + i)⟩ : Provider Int) "0xA" 3 (fun i => 100 + i)
    rfl (fun _ _ _ => rfl)).1
  simpa [List.range_succ] using h

/-- C6: when the provider reports the transaction count `N`, the lookup at a
nonce `i < N` fails with error `e` and every lookup at a nonce strictly between
`i` and `N` succeeds, `getTransactionHistory` throws `e` after the lookups at
`N-1, ..., i`: it returns no list, and no lookup is issued at a nonce below
`i`. -/
theorem getTransactionHistory_first_failure {τ : Type} (provider : Provider τ)
    (address : String) (N i : Nat) (e : JSError) (hi : i < N)
    (hN : provider.getTransactionCount address = .ok (N : Int))
    (he : provider.getTransactionByNonce address (i : Int) = .error e)
    (hok : ∀ j : Int, (i : Int) < j → j < N →
      ∃ t, provider.getTransactionByNonce address j = .ok t) :
    (getTransactionHistory provider address).exec =
      (.error e,
        Call.getTransactionCount address ::
          (List.range (N - i)).map
            (fun j : Nat => Call.getTransactionByNonce address ((N : Int) - 1 - j))) ∧
    (∀ transactions, (getTransactionHistory provider address).exec.1 ≠ .ok transactions) ∧
    (∀ j : Int, j < i →
      Call.getTransactionByNonce address j ∉ (getTransactionHistory provider address).exec.2) := by
  obtain ⟨d, rfl⟩ : ∃ d, N = i + d + 1 := ⟨N - 1 - i, by omega⟩
  have hrun : (getTransactionHistory provider address).exec =
      (.error e,
        Call.getTransactionCount address ::
          (List.range (i + d + 1 - i)).map
            (fun j : Nat =>
              Call.getTransactionByNonce address (((i + d + 1 : Nat) : Int) - 1 - j))) := by
    unfold getTransactionHistory Async.exec
    have hs : ((i + d + 1 : Nat) : Int) - 1 = (i : Int) + d := by push_cast; ring
    have hlen : i + d + 1 - i = d + 1 := by omega
    rw [hN, Async.run_await_bind_ok, hs, hlen,
      getTransactionHistory.loop_fail provider address i e he d _ _
        (fun j h0 hj => hok j h0 (by push_cast; omega))]
    simp
  refine ⟨hrun, ?_, ?_⟩
  · intro transactions h
    rw [hrun] at h
    cases h
  · intro j hj hmem
    rw [hrun] at hmem
    simp only [List.mem_cons, List.mem_map, List.mem_range, Call.getTransactionByNonce.injEq,
      true_and, false_or, reduceCtorEq] at hmem
    obtain ⟨k, hk, hkj⟩ := hmem
    push_cast at hkj
    omega

theorem getTransactionHistory_first_failure_witness :
    (getTransactionHistory
        (⟨fun _ => .ok 3,
          fun _ i => if i = 1 then .error (.error "lookup failed") else .ok i⟩ : Provider Int)
        "0xA").exec =
      (.error (.error "lookup failed"),
        [Call.getTransactionCount "0xA", Call.getTransactionByNonce "0xA" 2,
          Call.getTransactionByNonce "0xA" 1]) := by
  have h := (getTransactionHistory_first_failure
    (⟨fun _ => .ok 3,
      fun _ i => if i = 1 then .error (.error "lookup failed") else .ok i⟩ : Provider Int)
    "0xA" 3 1 (.error "lookup failed") (by decide) rfl rfl
    (fun j h1 _ => ⟨j, if_neg (by push_cast at h1; omega)⟩)).1
  simpa [List.range_succ] using h

/-! ## NFT enumeration claims -/

theorem sampleContract_tokenURI : sampleContract.tokenURI 7 = .ok "ipfs://token/7" :=
  congrArg Except.ok (by decide)

/-- The run of `getNFTsFromAddress` when every sub-call succeeds and no fetched
document is `null` or `undefined`. -/
theorem getNFTsFromAddress_exec_ok {ρ : Type} (contract : Contract) (web : Web ρ)
    (address : String) (B : Nat) (tok : Nat → Nat) (uri : Nat → String) (resp : Nat → ρ)
    (meta : Nat → JSValue)
    (hB : contract.balanceOf address = .ok B)
    (h : ∀ i, i < B → contract.tokenOfOwnerByIndex address i = .ok (tok i) ∧
      contract.tokenURI (tok i) = .ok (uri i) ∧ web.fetch (uri i) = .ok (resp i) ∧
      web.json (resp i) = .ok (meta i) ∧ meta i ≠ .null ∧ meta i ≠ .undefined) :
    (getNFTsFromAddress contract web address).exec =
      (.ok ((List.range B).map (fun i =>
          ({ tokenId := toString (tok i)
             name := fieldOr (meta i) "name" "NFT sin nombre"
             description := fieldOr (meta i) "description" "NFT sin descripción"
             image := fieldOr (meta i) "image" "NFT sin imagen"
             attributes := fieldOr (meta i) "attributes" "NFT sin atributos" } : NFT))),
        Call.balanceOf address :: (List.range B).flatMap
          (fun i => [Call.tokenOfOwnerByIndex address i, Call.tokenURI (tok i),
            Call.fetch (uri i)])) := by
  unfold getNFTsFromAddress Async.exec
  rw [hB, Async.run_await_bind_ok,
    nftLoop_all_ok contract web (fun i => Call.tokenOfOwnerByIndex address i)
      (fun i => contract.tokenOfOwnerByIndex address i) B tok uri resp meta _
      (fun j hj => ⟨(h j hj).1, (h j hj).2.1, (h j hj).2.2.1, (h j hj).2.2.2.1,
        nftEntry_ok (tok j) (meta j) (h j hj).2.2.2.2.1 (h j hj).2.2.2.2.2⟩)
      B 0 [] _ (by omega), List.range_eq_range']
  simp

/-- C7 as stated fails: with balance 1 and every sub-call succeeding
(`tokenOfOwnerByIndex`, `tokenURI`, `fetch` and the body read), a metadata
document that is the JSON value `null` makes `getNFTsFromAddress` throw a
`TypeError` at `metadata.name` instead of returning a list of one entry. -/
theorem getNFTsFromAddress_null_document :
    sampleContract.balanceOf "0xA" = .ok 1 ∧
    sampleContract.tokenOfOwnerByIndex "0xA" 0 = .ok 7 ∧
    sampleContract.tokenURI 7 = .ok "ipfs://token/7" ∧
    (sampleWeb .null).fetch "ipfs://token/7" = .ok () ∧
    (sampleWeb .null).json () = .ok .null ∧
    (getNFTsFromAddress sampleContract (sampleWeb .null) "0xA").exec =
      (.error (.typeError "Cannot read properties of null (reading 'name')"),
        [Call.balanceOf "0xA", Call.tokenOfOwnerByIndex "0xA" 0, Call.tokenURI 7,
          Call.fetch "ipfs://token/7"]) := by
  refine ⟨rfl, rfl, sampleContract_tokenURI, rfl, rfl, ?_⟩
  have h7 : sampleContract.tokenURI 7 = .ok "ipfs://token/7" := sampleContract_tokenURI
  unfold getNFTsFromAddress Async.exec
  rw [show sampleContract.balanceOf "0xA" = .ok 1 from rfl, Async.run_await_bind_ok,
    nftLoop, if_pos (by decide),
    show sampleContract.tokenOfOwnerByIndex "0xA" 0 = .ok 7 from rfl, Async.run_await_bind_ok,
    h7, Async.run_await_bind_ok,
    show (sampleWeb .null).fetch "ipfs://token/7" = .ok () from rfl, Async.run_await_bind_ok,
    show (sampleWeb .null).json () = .ok .null from rfl, Async.run_lift_bind_ok,
    show nftEntry 7 .null =
      .error (.typeError "Cannot read properties of null (reading 'name')") from rfl,
    Async.run_lift_bind_error]
  rfl

/-- C7, amended: when `balanceOf(address)` is `B`, every sub-call succeeds and
every fetched metadata document is a JSON value other than `null`,
`getNFTsFromAddress` returns exactly `B` entries in ascending index order; entry
`i` has as `tokenId` the decimal string of `tokenOfOwnerByIndex(address, i)` and
is built from the document fetched from `tokenURI` of that token id. After
`balanceOf`, the calls are the `B` triples (`tokenOfOwnerByIndex`, `tokenURI`,
`fetch`) for `i = 0, ..., B-1`; with `B = 0` the result is empty and no such
call is issued. -/
theorem getNFTsFromAddress_all_succeed {ρ : Type} (contract : Contract) (web : Web ρ)
    (address : String) (B : Nat) (tok : Nat → Nat) (uri : Nat → String) (resp : Nat → ρ)
    (meta : Nat → JSValue)
    (hB : contract.balanceOf address = .ok B)
    (h : ∀ i, i < B → contract.tokenOfOwnerByIndex address i = .ok (tok i) ∧
      contract.tokenURI (tok i) = .ok (uri i) ∧ web.fetch (uri i) = .ok (resp i) ∧
      web.json (resp i) = .ok (meta i) ∧ meta i ≠ .null ∧ meta i ≠ .undefined) :
    ∃ nfts : List NFT,
      (getNFTsFromAddress contract web address).exec =
        (.ok nfts,
          Call.balanceOf address :: (List.range B).flatMap
            (fun i => [Call.tokenOfOwnerByIndex address i, Call.tokenURI (tok i),
              Call.fetch (uri i)])) ∧
      nfts.length = B ∧
      ∀ i, i < B → ∃ nft, nfts[i]? = some nft ∧ nft.tokenId = toString (tok i) ∧
        nftEntry (tok i) (meta i) = .ok nft := by
  refine ⟨_, getNFTsFromAddress_exec_ok contract web address B tok uri resp meta hB h,
    by simp, ?_⟩
  intro i hi
  refine ⟨_, ?_, rfl, nftEntry_ok (tok i) (meta i) (h i hi).2.2.2.2.1 (h i hi).2.2.2.2.2⟩
  simp [List.getElem?_map, List.getElem?_range hi]

theorem getNFTsFromAddress_all_succeed_witness :
    ∃ nfts : List NFT,
      (getNFTsFromAddress sampleContract (sampleWeb (.object [("name", .string "Gato")]))
          "0xA").exec =
        (.ok nfts,
          Call.balanceOf "0xA" :: (List.range 1).flatMap
            (fun i => [Call.tokenOfOwnerByIndex "0xA" i, Call.tokenURI 7,
              Call.fetch "ipfs://token/7"])) ∧
      nfts.length = 1 ∧
      ∀ i, i < 1 → ∃ nft, nfts[i]? = some nft ∧ nft.tokenId = toString 7 ∧
        nftEntry 7 (.object [("name", .string "Gato")]) = .ok nft :=
  getNFTsFromAddress_all_succeed sampleContract (sampleWeb (.object [("name", .string "Gato")]))
    "0xA" 1 (fun _ => 7) (fun _ => "ipfs://token/7") (fun _ => ())
    (fun _ => .object [("name", .string "Gato")]) rfl
    (fun _ _ => ⟨rfl, sampleContract_tokenURI, rfl, rfl, by simp, by simp⟩)

/-- C10 as stated fails: a metadata document whose `attributes` is the empty
array (a truthy value) yields an entry whose `attributes` is that empty array,
not the placeholder, while its empty `name` is replaced. -/
theorem getNFTsFromAddress_empty_attributes :
    ∃ nft : NFT,
      (getNFTsFromAddress sampleContract
        (sampleWeb (.object [("name", .string ""), ("attributes", .array [])])) "0xA").exec.1 =
        .ok [nft] ∧
      nft.name = .string "NFT sin nombre" ∧ nft.attributes = .array [] := by
  have hrun := getNFTsFromAddress_exec_ok sampleContract
    (sampleWeb (.object [("name", .string ""), ("attributes", .array [])]))
    "0xA" 1 (fun _ => 7) (fun _ => "ipfs://token/7") (fun _ => ())
    (fun _ => .object [("name", .string ""), ("attributes", .array [])]) rfl
    (fun _ _ => ⟨rfl, sampleContract_tokenURI, rfl, rfl, by simp, by simp⟩)
  refine ⟨{ tokenId := "7"
            name := .string "NFT sin nombre"
            description := .string "NFT sin descripción"
            image := .string "NFT sin imagen"
            attributes := .array [] }, ?_, rfl, rfl⟩
  rw [hrun]
  simp [List.range_succ, fieldOr, List.lookup, JSValue.truthy]
  decide

/-- C10, amended: in every entry returned by `getNFTsFromAddress` and by
`getAllNFTsInCollection`, each of `name`, `description`, `image` and
`attributes` equals the corresponding field of the fetched metadata when that
field is present and truthy, and its fixed placeholder otherwise; so every
returned field is truthy: it is never `undefined`, `null`, `false`, `0` or the
empty string (an empty array or object, being truthy, is kept as it is). -/
theorem nft_fields_or_placeholder {ρ : Type} (contract : Contract) (web : Web ρ)
    (address : String) (nfts : List NFT) (nft : NFT)
    (hrun : (getNFTsFromAddress contract web address).exec.1 = .ok nfts ∨
      (getAllNFTsInCollection contract web).exec.1 = .ok nfts)
    (hmem : nft ∈ nfts) :
    ∃ tokenId uri response metadata,
      contract.tokenURI tokenId = .ok uri ∧ web.fetch uri = .ok response ∧
      web.json response = .ok metadata ∧
      nft.name = fieldOr metadata "name" "NFT sin nombre" ∧
      nft.description = fieldOr metadata "description" "NFT sin descripción" ∧
      nft.image = fieldOr metadata "image" "NFT sin imagen" ∧
      nft.attributes = fieldOr metadata "attributes" "NFT sin atributos" ∧
      ∀ v ∈ [nft.name, nft.description, nft.image, nft.attributes],
        v.truthy = true ∧ v ≠ .undefined ∧ v ≠ .null ∧ v ≠ .bool false ∧ v ≠ .number 0 ∧
          v ≠ .string "" := by
  have hloop : ∃ (tokenAt : Nat → Async Nat) (count : Nat) (calls calls' : List Call),
      (nftLoop contract web tokenAt count 0 []).run calls = (.ok nfts, calls') := by
    rcases hrun with hrun | hrun
    · unfold getNFTsFromAddress Async.exec at hrun
      rcases hb : contract.balanceOf address with _ | balance
      · rw [hb, Async.run_await_bind_error] at hrun; cases hrun
      · rw [hb, Async.run_await_bind_ok] at hrun
        exact ⟨_, balance, _, _, Prod.ext hrun rfl⟩
    · unfold getAllNFTsInCollection Async.exec at hrun
      rcases hb : contract.totalSupply with _ | totalSupply
      · rw [hb, Async.run_await_bind_error] at hrun; cases hrun
      · rw [hb, Async.run_await_bind_ok] at hrun
        exact ⟨_, totalSupply, _, _, Prod.ext hrun rfl⟩
  obtain ⟨tokenAt, count, calls, calls', hl⟩ := hloop
  rcases nftLoop_entries contract web tokenAt count count 0 [] calls nfts calls' (by omega) hl
    nft hmem with hnil | ⟨tokenId, uri, response, metadata, h2, h3, h4, h5⟩
  · cases hnil
  have heq := nftEntry_eq_ok tokenId metadata nft h5
  refine ⟨tokenId, uri, response, metadata, h2, h3, h4, by rw [heq], by rw [heq], by rw [heq],
    by rw [heq], ?_⟩
  intro v hv
  have hv' : v.truthy = true := by
    rw [heq] at hv
    simp only [List.mem_cons, List.mem_singleton, List.not_mem_nil, or_false] at hv
    rcases hv with rfl | rfl | rfl | rfl <;> exact fieldOr_truthy _ _ _ (by decide)
  exact ⟨hv', truthy_ne_falsy v hv'⟩

theorem nft_fields_or_placeholder_witness :
    ∃ (tokenId : Nat) (uri : String) (response : Unit) (metadata : JSValue),
      sampleContract.tokenURI tokenId = .ok uri ∧
      (sampleWeb (.object [("name", .string ""), ("attributes", .array [])])).fetch uri =
        .ok response ∧
      (sampleWeb (.object [("name", .string ""), ("attributes", .array [])])).json response =
        .ok metadata ∧
      JSValue.string "NFT sin nombre" = fieldOr metadata "name" "NFT sin nombre" ∧
      JSValue.string "NFT sin descripción" =
        fieldOr metadata "description" "NFT sin descripción" ∧
      JSValue.string "NFT sin imagen" = fieldOr metadata "image" "NFT sin imagen" ∧
      JSValue.array [] = fieldOr metadata "attributes" "NFT sin atributos" ∧
      ∀ v ∈ [JSValue.string "NFT sin nombre", JSValue.string "NFT sin descripción",
          JSValue.string "NFT sin imagen", JSValue.array []],
        v.truthy = true ∧ v ≠ .undefined ∧ v ≠ .null ∧ v ≠ .bool false ∧ v ≠ .number 0 ∧
          v ≠ .string "" :=
  nft_fields_or_placeholder sampleContract
    (sampleWeb (.object [("name", .string ""), ("attributes", .array [])])) "0xA"
    [{ tokenId := "7"
       name := .string "NFT sin nombre"
       description := .string "NFT sin descripción"
       image := .string "NFT sin imagen"
       attributes := .array [] }]
    { tokenId := "7"
      name := .string "NFT sin nombre"
      description := .string "NFT sin descripción"
      image := .string "NFT sin imagen"
      attributes := .array [] }
    (Or.inl (by
      rw [getNFTsFromAddress_exec_ok sampleContract
        (sampleWeb (.object [("name", .string ""), ("attributes", .array [])]))
        "0xA" 1 (fun _ => 7) (fun _ => "ipfs://token/7") (fun _ => ())
        (fun _ => .object [("name", .string ""), ("attributes", .array [])]) rfl
        (fun _ _ => ⟨rfl, sampleContract_tokenURI, rfl, rfl, by simp, by simp⟩)]
      simp [List.range_succ, fieldOr, List.lookup, JSValue.truthy]
      decide))
    (List.mem_singleton.mpr rfl)

/-! ## Unit conversion claim -/

/-- C8: every request that `sendTransaction` submits carries exactly converted
amounts, each converted once: for a decimal string `amount` with at most 18
fractional digits `value = amount * 10^18`, for a decimal string `gasPrice`
with at most 9 fractional digits `gasPrice = gasPrice * 10^9`, both exact
integers, while `to` and `gasLimit` are passed through unconverted. Such a
request is submitted, and is the only call, whenever `gasLimit` is a safe
integer (magnitude below `2^53 - 1`); otherwise nothing is submitted. `'1.5'`
ether is 1500000000000000000 and `'20'` gwei is 20000000000. -/
theorem sendTransaction_units_exact (connectedWallet : Signer) (toAddress : String)
    (amount gasPrice : Decimal) (gasLimit : Int)
    (ha : amount.WellFormed) (hg : gasPrice.WellFormed)
    (ha18 : amount.fraction.length ≤ 18) (hg9 : gasPrice.fraction.length ≤ 9) :
    (∃ value gasPriceWei : Int,
      (value : ℚ) = amount.value * 10 ^ 18 ∧ (gasPriceWei : ℚ) = gasPrice.value * 10 ^ 9 ∧
      (∀ call ∈
          (sendTransaction connectedWallet toAddress amount.text gasPrice.text gasLimit).exec.2,
        call = Call.sendTransaction
          { to_ := toAddress, value := value, gasPrice := gasPriceWei, gasLimit := gasLimit }) ∧
      (-(2 ^ 53 - 1) < gasLimit → gasLimit < 2 ^ 53 - 1 →
        (sendTransaction connectedWallet toAddress amount.text gasPrice.text gasLimit).exec =
          (connectedWallet.sendTransaction
              { to_ := toAddress, value := value, gasPrice := gasPriceWei,
                gasLimit := gasLimit },
            [Call.sendTransaction
              { to_ := toAddress, value := value, gasPrice := gasPriceWei,
                gasLimit := gasLimit }])) ∧
      (gasLimit ≤ -(2 ^ 53 - 1) ∨ 2 ^ 53 - 1 ≤ gasLimit →
        (sendTransaction connectedWallet toAddress amount.text gasPrice.text gasLimit).exec =
          (.error (.error "overflow"), []))) ∧
    parseEther "1.5" = .ok 1500000000000000000 ∧
    parseUnits "20" "gwei" = .ok 20000000000 := by
  refine ⟨?_, by rfl, by rfl⟩
  obtain ⟨value, hv, hvq⟩ := parseFixed_exact amount 18 ha ha18
  obtain ⟨gasPriceWei, hp, hpq⟩ := parseFixed_exact gasPrice 9 hg hg9
  have hu : parseUnits gasPrice.text "gwei" = .ok gasPriceWei := by
    simp only [parseUnits, unitDecimals]
    exact hp
  have hrun : (sendTransaction connectedWallet toAddress amount.text gasPrice.text gasLimit).exec =
      (Async.lift (BigNumber.from_ gasLimit) >>= fun gasLimitBN =>
        Async.await
          (.sendTransaction
            { to_ := toAddress, value := value, gasPrice := gasPriceWei, gasLimit := gasLimitBN })
          (connectedWallet.sendTransaction
            { to_ := toAddress, value := value, gasPrice := gasPriceWei,
              gasLimit := gasLimitBN })).run [] := by
    unfold sendTransaction Async.exec
    rw [show parseEther amount.text = .ok value from hv, Async.run_lift_bind_ok, hu,
      Async.run_lift_bind_ok]
  have hsafe : -(2 ^ 53 - 1) < gasLimit → gasLimit < 2 ^ 53 - 1 →
      BigNumber.from_ gasLimit = .ok gasLimit := by
    intro h1 h2
    unfold BigNumber.from_ MAX_SAFE
    rw [if_neg]
    norm_num at h1 h2 ⊢
    omega
  have hover : gasLimit ≤ -(2 ^ 53 - 1) ∨ 2 ^ 53 - 1 ≤ gasLimit →
      BigNumber.from_ gasLimit = .error (.error "overflow") := by
    intro h
    unfold BigNumber.from_ MAX_SAFE
    rw [if_pos]
    norm_num at h ⊢
    omega
  refine ⟨value, gasPriceWei, hvq, hpq, ?_, ?_, ?_⟩
  · intro call hcall
    rw [hrun] at hcall
    by_cases hs : -(2 ^ 53 - 1) < gasLimit ∧ gasLimit < 2 ^ 53 - 1
    · rw [hsafe hs.1 hs.2, Async.run_lift_bind_ok] at hcall
      simpa [Async.await] using hcall
    · rw [hover (by omega), Async.run_lift_bind_error] at hcall
      simp at hcall
  · intro h1 h2
    rw [hrun, hsafe h1 h2, Async.run_lift_bind_ok]
    rfl
  · intro h
    rw [hrun, hover h, Async.run_lift_bind_error]

theorem sendTransaction_units_exact_witness :
    (Decimal.mk false [1] true [5]).text = "1.5" ∧
    (Decimal.mk false [2, 0] false []).text = "20" ∧
    (Decimal.mk false [1] true [5]).value = 3 / 2 ∧
    (Decimal.mk false [2, 0] false []).value = 20 ∧
    ∃ value gasPriceWei : Int,
      (value : ℚ) = (Decimal.mk false [1] true [5]).value * 10 ^ 18 ∧
      (gasPriceWei : ℚ) = (Decimal.mk false [2, 0] false []).value * 10 ^ 9 ∧
      (sendTransaction ⟨fun _ => .ok "0xhash"⟩ "0xB" (Decimal.mk false [1] true [5]).text
          (Decimal.mk false [2, 0] false []).text 21000).exec =
        ((⟨fun _ => .ok "0xhash"⟩ : Signer).sendTransaction
            { to_ := "0xB", value := value, gasPrice := gasPriceWei, gasLimit := 21000 },
          [Call.sendTransaction
            { to_ := "0xB", value := value, gasPrice := gasPriceWei, gasLimit := 21000 }]) := by
  obtain ⟨value, gasPriceWei, hv, hg, -, hrun, -⟩ :=
    (sendTransaction_units_exact ⟨fun _ => .ok "0xhash"⟩ "0xB"
      (Decimal.mk false [1] true [5]) (Decimal.mk false [2, 0] false []) 21000
      (by decide) (by decide) (by decide) (by decide)).1
  refine ⟨by decide, by decide, ?_, ?_, value, gasPriceWei, hv, hg,
    hrun (by norm_num) (by norm_num)⟩
  · norm_num [Decimal.value, Nat.ofDigits]
  · norm_num [Decimal.value, Nat.ofDigits]

end EasyEthers
